import Mathlib

set_option maxRecDepth 100000

/-!
Verification of the smtool repository (leveleven/smtool).

The development shallowly embeds the two non-trivial parts of the program:

* the checksummed file reader (function read in src/unnamed/part_000,
  lines 68-101), built on Go's hash/crc64 with the ISO polynomial, and
* the nonce-search controller (newParams, generateNonce, saveMetadata in
  src/unnamed/part_000, lines 163-285), which drives an external oracle
  over successive uint64 position batches and persists progress metadata.

src/unnamed/part_000 is the current main of module smtool (it imports the
repository's cgo shim smtool/postrs and carries the provider and logLevel
CLI flags); src/main.go is an older duplicated variant of the same file.
Where the two differ (the nonce-exists guard in newParams) the part_000
variant is modelled.

Machine integers are modelled as Nat with explicit reduction modulo 2^64
where Go's uint64 arithmetic can wrap.  Byte slices are List Nat with a
side condition that entries are below 256 where it matters.  The external
oracle (oracle.New / wo.Positions) is a parameter of the model, and the
nondeterministic number of bytes an io.Reader returns per call is a
schedule parameter of the reader model.
-/

/-- 2^64, the modulus of Go's uint64 arithmetic. -/
def U64 : Nat := 18446744073709551616

/-- The all-ones 64-bit word, 2^64 - 1 (math.MaxUint64 in the source). -/
def mask64 : Nat := 18446744073709551615

/-! ## CRC-64/ISO (Go package hash/crc64, table crc64.MakeTable(crc64.ISO))

Go's crc64 digest processes a byte stream with the reversed (LSB-first)
ISO polynomial 0xD800000000000000: the running crc starts complemented,
each byte is xor-ed into the low 8 bits and followed by eight
shift-by-one steps conditionally xor-ing the polynomial, and the final
value is complemented again.  Go's table-driven update
(tab[byte(crc)^b] ^ (crc >> 8)) is exactly eight such bit steps, so the
bit-at-a-time form below is the same function.  The model is validated
against the standard CRC-64/ISO check value
crc64("123456789") = 0xB90956C775A41001 further down. -/

/-- The reversed CRC-64/ISO polynomial (crc64.ISO in Go). -/
def crcPoly : Nat := 0xD800000000000000

/-- One LSB-first CRC shift step. -/
def crcBit (c : Nat) : Nat :=
  if c % 2 = 1 then c / 2 ^^^ crcPoly else c / 2

/-- n iterated CRC shift steps. -/
def crcBitIter : Nat → Nat → Nat
  | 0, c => c
  | n + 1, c => crcBitIter n (crcBit c)

/-- Process one input byte: xor it into the crc, then eight shift steps.
Equals Go's tab[byte(crc)^b] ^ (crc >> 8). -/
def crcByte (c b : Nat) : Nat := crcBitIter 8 (c ^^^ b)

/-- Digest a byte list from running state c (Go's crc64 update loop). -/
def crc64Update (c : Nat) (l : List Nat) : Nat := l.foldl crcByte c

/-- crc64.Checksum of a byte list: complemented initial state, digest,
complemented result (hash/crc64 with crc64.MakeTable(crc64.ISO)). -/
def crc64 (l : List Nat) : Nat := crc64Update mask64 l ^^^ mask64

/-! ## Big-endian 64-bit encoding (encoding/binary.BigEndian) -/

/-- binary.BigEndian.Uint64: fold 8 bytes MSB first. -/
def beUint64 (l : List Nat) : Nat := l.foldl (fun acc b => acc * 256 + b) 0

/-- binary.BigEndian.PutUint64: the 8 big-endian bytes of n. -/
def be64Bytes (n : Nat) : List Nat :=
  [n / 2 ^ 56 % 256, n / 2 ^ 48 % 256, n / 2 ^ 40 % 256, n / 2 ^ 32 % 256,
   n / 2 ^ 24 % 256, n / 2 ^ 16 % 256, n / 2 ^ 8 % 256, n % 256]

/-! ## The checksummed reader (function read, part_000 lines 68-101)

The Go code stats the file, rejects sizes below crc64.Size = 8, allocates
a payload buffer of fileSize - 8 bytes, issues a SINGLE Read call through
an io.TeeReader into the crc64 digest, issues a SINGLE Read call for the
8 stored checksum bytes, and compares binary.BigEndian.Uint64 of that
buffer with the digest.  Both byte counts returned by the Read calls are
discarded (blank identifier), so buffer bytes beyond what a call actually
returned keep their zero value.

io.Reader allows any call to return fewer bytes than requested; the model
therefore takes the two returned byte counts k1 and k2 as schedule
parameters.  validSchedule states what the io.Reader contract permits for
a file of the given size; readGreedy is the schedule in which each call
returns everything that was requested (the common behaviour of os.File on
a regular file). -/

/-- Errors of the reader.  checksumMismatch carries the stored and the
computed checksum, the two values Go formats in hexadecimal in
fmt.Errorf("wrong checksum 0x%X, computed 0x%X", saved, computed). -/
inductive ReadError where
  | tooSmall
  | checksumMismatch (stored computed : Nat)
deriving DecidableEq, Repr

/-- The read function of part_000 lines 68-101, with the byte counts
returned by its two Read calls as schedule parameters k1 and k2. -/
def read (file : List Nat) (k1 k2 : Nat) : Except ReadError (List Nat) :=
  if file.length < 8 then .error .tooSmall
  else
    let computed := crc64 (file.take k1)
    let savedChecksum := beUint64 ((file.drop k1).take k2 ++ List.replicate (8 - k2) 0)
    if savedChecksum ≠ computed then .error (.checksumMismatch savedChecksum computed)
    else .ok (file.take k1 ++ List.replicate (file.length - 8 - k1) 0)

/-- What the io.Reader contract allows the two Read calls of read to
return for this file: the first call asks for fileSize - 8 bytes from
offset 0 (a call on a non-empty buffer returns at least one byte here,
since that many bytes are available), the second asks for 8 bytes, of
which at least 8 remain. -/
def validSchedule (file : List Nat) (k1 k2 : Nat) : Prop :=
  (file.length - 8 = 0 → k1 = 0) ∧
  (0 < file.length - 8 → 1 ≤ k1 ∧ k1 ≤ file.length - 8) ∧
  1 ≤ k2 ∧ k2 ≤ 8

instance (file : List Nat) (k1 k2 : Nat) : Decidable (validSchedule file k1 k2) := by
  unfold validSchedule; infer_instance

/-- read under the schedule where every Read call returns all requested
bytes (regular-file behaviour). -/
def readGreedy (file : List Nat) : Except ReadError (List Nat) :=
  read file (file.length - 8) 8

/-! ## The nonce-search controller (part_000 lines 163-285) -/

/-- The fields of the loaded postdata_metadata.json that the modelled
code reads (initialization.LoadMetadata).  NodeId, CommitmentAtxId and
MaxFileSize are carried through unchanged and are omitted. -/
structure Meta where
  labelsPerUnit : Nat
  numUnits : Nat
  nonce : Option Nat
  lastPosition : Option Nat
deriving DecidableEq, Repr

/-- The three atomic slots of the params struct that the search mutates:
lastPosition, nonce and nonceValue (part_000 lines 45-47). -/
structure SearchSt where
  lastPosition : Option Nat
  nonce : Option Nat
  nonceValue : Option (List Nat)
deriving DecidableEq, Repr

/-- The search-relevant part of params as built by newParams. -/
structure ParamsRec where
  labelsPerUnit : Nat
  numUnits : Nat
  search : SearchSt
deriving DecidableEq, Repr

/-- The error of newParams that the claims concern (ErrNonceExists,
part_000 line 31).  LoadMetadata IO and decode failures are external. -/
inductive NewParamsError where
  | nonceExists
deriving DecidableEq, Repr

/-- newParams (part_000 lines 163-207): after loading the metadata it
returns ErrNonceExists when metadata.Nonce is non-nil; otherwise it
builds params copying labelsPerUnit and numUnits.  The atomic slots
lastPosition, nonce and nonceValue are left at their zero value nil —
the loaded metadata.LastPosition is NOT copied into params. -/
def newParams (m : Meta) : Except NewParamsError ParamsRec :=
  match m.nonce with
  | some _ => .error .nonceExists
  | none => .ok ⟨m.labelsPerUnit, m.numUnits, ⟨none, none, none⟩⟩

/-- One answer of the external oracle session to wo.Positions(start, end):
an error, or a result whose Nonce field is nil or a found nonce. -/
inductive OracleResp where
  | err
  | ok (nonce : Option Nat)

/-- How generateNonce returned: success (it returned nil, after break on
a found nonce or after the loop guard failed), oracleErr (it returned the
wo.Positions error), or fuelOut (a model artifact: the run was cut off
while the loop was still going, so the function has not returned). -/
inductive ExitKind where
  | success
  | oracleErr
  | fuelOut
deriving DecidableEq, Repr

/-- Observable outcome of the loop of generateNonce: final slot state,
the values stored into p.lastPosition in order, the (start, end) ranges
passed to wo.Positions in order, and how the loop ended. -/
structure LoopOut where
  st : SearchSt
  stores : List Nat
  calls : List (Nat × Nat)
  exit : ExitKind
deriving DecidableEq, Repr

/-- Go's i + batchSize - 1 on uint64: both operations wrap modulo 2^64. -/
def rangeEnd (i b : Nat) : Nat := ((i + b) % U64 + U64 - 1) % U64

/-- The search loop of generateNonce (part_000 lines 244-265):
for i := uint64(0); i < math.MaxUint64; i += batchSize, each iteration
stores i into p.lastPosition, calls wo.Positions(i, i+batchSize-1),
returns the error on failure, stores the nonce and breaks when one is
found, and otherwise continues with i incremented modulo 2^64.  fuel
bounds the number of iterations the model unrolls. -/
def nonceLoop (orc : Nat → Nat → OracleResp) (b : Nat) :
    Nat → Nat → SearchSt → LoopOut
  | 0, _, st => ⟨st, [], [], .fuelOut⟩
  | fuel + 1, i, st =>
    if i < mask64 then
      let st1 : SearchSt := { st with lastPosition := some i }
      let e := rangeEnd i b
      match orc i e with
      | .err => ⟨st1, [i], [(i, e)], .oracleErr⟩
      | .ok (some n) => ⟨{ st1 with nonce := some n }, [i], [(i, e)], .success⟩
      | .ok none =>
          let r := nonceLoop orc b fuel ((i + b) % U64) st1
          ⟨r.st, i :: r.stores, (i, e) :: r.calls, r.exit⟩
    else ⟨st, [], [], .success⟩

/-- Observable outcome of one generateNonce run. -/
structure GenOut where
  st : SearchSt
  stores : List Nat
  calls : List (Nat × Nat)
  savedStates : List SearchSt
  saveFailed : Bool
  retErr : Bool
  exit : ExitKind
deriving DecidableEq, Repr

/-- generateNonce (part_000 lines 214-269), after oracle.New succeeded:
numLabels := uint64(numUnits) * labelsPerUnit; if p.lastPosition is nil
or below numLabels, store numLabels into it; defer p.saveMetadata(); then
run the batch loop from i = 0.  savedStates lists the state snapshot at
each execution of the deferred save (the deferred call reads the slots at
function exit, so it sees the final state; it does not run while the
model is still inside the loop, i.e. on fuelOut).  saveFails says whether
the external initialization.SaveMetadata call inside saveMetadata fails;
the deferred statement discards saveMetadata's return value, so retErr —
what generateNonce itself returns, error or nil — comes only from the
loop. -/
def generateNonce (orc : Nat → Nat → OracleResp) (b fuel : Nat)
    (numUnits labelsPerUnit : Nat) (saveFails : Bool) (p : SearchSt) : GenOut :=
  let numLabels := numUnits * labelsPerUnit % U64
  let p1 : SearchSt :=
    match p.lastPosition with
    | none => { p with lastPosition := some numLabels }
    | some l => if l < numLabels then { p with lastPosition := some numLabels } else p
  let initStores : List Nat :=
    match p.lastPosition with
    | none => [numLabels]
    | some l => if l < numLabels then [numLabels] else []
  let r := nonceLoop orc b fuel 0 p1
  { st := r.st
    stores := initStores ++ r.stores
    calls := r.calls
    savedStates := if r.exit = .fuelOut then [] else [r.st]
    saveFailed := saveFails && !(r.exit = .fuelOut)
    retErr := r.exit = .oracleErr
    exit := r.exit }

/-- The metadata record written by saveMetadata (part_000 lines 271-285):
Nonce and LastPosition come from the slots; NonceValue is set from the
nonceValue slot only when that slot is non-nil, else it stays the empty
zero value.  The pass-through fields are omitted as in Meta. -/
structure SavedMeta where
  nonce : Option Nat
  lastPosition : Option Nat
  nonceValue : List Nat
deriving DecidableEq, Repr

/-- saveMetadata's snapshot of the slots (part_000 lines 271-285). -/
def saveMetadata (p : SearchSt) : SavedMeta :=
  ⟨p.nonce, p.lastPosition, p.nonceValue.getD []⟩

/-- The genonce flow (part_000 lines 131-149): newParams, then
generateNonce; a newParams error (ErrNonceExists) stops before any
oracle work. -/
def genonceFlow (orc : Nat → Nat → OracleResp) (b fuel : Nat)
    (saveFails : Bool) (m : Meta) : Except NewParamsError GenOut :=
  (newParams m).map fun pr =>
    generateNonce orc b fuel pr.numUnits pr.labelsPerUnit saveFails pr.search

/-- The oracle ranges a genonce flow invokes (none when newParams
signalled ErrNonceExists and the controller never ran). -/
def flowCalls (r : Except NewParamsError GenOut) : List (Nat × Nat) :=
  match r with
  | .error _ => []
  | .ok o => o.calls

/-- The lastPosition stores a genonce flow performs, in order. -/
def flowStores (r : Except NewParamsError GenOut) : List Nat :=
  match r with
  | .error _ => []
  | .ok o => o.stores

/-- An oracle that reports no nonce in any range and never fails. -/
def orcNone : Nat → Nat → OracleResp := fun _ _ => .ok none

/-- An oracle whose every scan fails. -/
def orcErr : Nat → Nat → OracleResp := fun _ _ => .err

/-- An oracle that finds nonce 5 in the first range it is asked. -/
def orcFind5 : Nat → Nat → OracleResp := fun _ _ => .ok (some 5)

instance {ε α : Type} [DecidableEq ε] [DecidableEq α] : DecidableEq (Except ε α) :=
  fun a b =>
    match a, b with
    | .ok x, .ok y =>
        if h : x = y then .isTrue (by rw [h])
        else .isFalse (by intro hc; cases hc; exact h rfl)
    | .error x, .error y =>
        if h : x = y then .isTrue (by rw [h])
        else .isFalse (by intro hc; cases hc; exact h rfl)
    | .ok _, .error _ => .isFalse (by intro hc; cases hc)
    | .error _, .ok _ => .isFalse (by intro hc; cases hc)

/-- Model validation: the bit-level crc64 reproduces the standard
CRC-64/ISO check value over the ASCII bytes of "123456789". -/
theorem crc64_check_value :
    crc64 [49, 50, 51, 52, 53, 54, 55, 56, 57] = 0xB90956C775A41001 := by decide

/-- The metadata record of the claims about resumption: no nonce yet,
prior progress lastPosition = 150, numLabels = 1 * 100 = 100. -/
def mResume : Meta := ⟨100, 1, none, some 150⟩

/-- C1: the claim that the first batch starts at the prior lastPosition L
(or at numLabels when there is no prior progress or L < numLabels) and
that no batch starts below numLabels is false on the code: newParams
drops the loaded LastPosition, and the loop of generateNonce starts at
i = 0 regardless of the lastPosition slot it has just initialized to
numLabels.  With loaded lastPosition 150 and numLabels 100, the first
oracle batch is [0, 99]: it starts at 0, which is neither 150 nor 100,
and is below numLabels = 100. -/
theorem generateNonce_first_batch_starts_at_zero :
    mResume.nonce = none ∧ mResume.lastPosition = some 150 ∧
    (flowCalls (genonceFlow orcNone 100 1 false mResume)).head? = some (0, 99) ∧
    (0 : Nat) ≠ 150 ∧ (0 : Nat) ≠ 100 ∧ (0 : Nat) < 1 * 100 := by decide

/-- C2: the claim that the stored lastPosition sequence is monotonically
non-decreasing and equals the batch-start positions visited is false on
the code: with numLabels = 100 the run first stores 100 (the
initialization store) and then stores the batch starts 0, 100, so the
stored sequence is [100, 0, 100] — it decreases from 100 to 0 and is not
the batch-start list [0, 100]. -/
theorem generateNonce_stores_not_monotone :
    flowStores (genonceFlow orcNone 100 2 false mResume) = [100, 0, 100] ∧
    ¬ List.Pairwise (· ≤ ·) ([100, 0, 100] : List Nat) ∧
    (flowCalls (genonceFlow orcNone 100 2 false mResume)).map Prod.fst = [0, 100] ∧
    ([100, 0, 100] : List Nat) ≠ [0, 100] := by decide

/-- C3: the claim that a successful read returns exactly the first
fileSize - 8 bytes regardless of how many bytes each underlying Read
call returns is false on the code: read issues a single Read call for
the payload and ignores the returned byte count.  On the 10-byte file
[1] ++ BE64(crc64 [1]) ++ [0], a legal schedule in which the first Read
call returns just 1 byte makes read succeed with payload [1, 0] (the
unread buffer byte stays zero), although the file's first 2 bytes are
[1, 110]; the checksum is compared against bytes 1..8 instead of the
final 8 bytes. -/
theorem read_short_read_wrong_payload :
    validSchedule (1 :: be64Bytes (crc64 [1]) ++ [0]) 1 8 ∧
    read (1 :: be64Bytes (crc64 [1]) ++ [0]) 1 8 = .ok [1, 0] ∧
    (1 :: be64Bytes (crc64 [1]) ++ [0]).take
      ((1 :: be64Bytes (crc64 [1]) ++ [0]).length - 8) = [1, 110] ∧
    ([1, 0] : List Nat) ≠ [1, 110] := by decide

/-- C7: the claim that the loop terminates when incrementing i by
batchSize would overflow uint64 is false on the code: at
i = 2^64 - batchSize (batchSize = 2^14, the power-of-two compute batch
size), i + batchSize = 2^64 overflows, yet i += batchSize wraps to 0,
the guard i < math.MaxUint64 holds again, and the oracle is invoked with
the wrapped range [0, batchSize - 1]. -/
theorem nonceLoop_wraps_instead_of_terminating :
    U64 ≤ (U64 - 2 ^ 14) + 2 ^ 14 ∧
    (nonceLoop orcNone (2 ^ 14) 2 (U64 - 2 ^ 14) ⟨some (U64 - 2 ^ 14), none, none⟩).calls
      = [(U64 - 2 ^ 14, U64 - 1), (0, 2 ^ 14 - 1)] ∧
    (nonceLoop orcNone (2 ^ 14) 2 (U64 - 2 ^ 14) ⟨some (U64 - 2 ^ 14), none, none⟩).exit
      = .fuelOut := by decide

/-- C9: the claim that a metadata save failure is reported to the caller
is false on the code: the deferred p.saveMetadata() discards the save's
return value, so when the oracle finds nonce 5 in the first batch and
the save fails, generateNonce still returns nil (retErr = false).  The
save failure does not erase the in-memory nonce (st.nonce = some 5). -/
theorem generateNonce_swallows_save_error :
    (generateNonce orcFind5 100 1 1 100 true ⟨none, none, none⟩).saveFailed = true ∧
    (generateNonce orcFind5 100 1 1 100 true ⟨none, none, none⟩).retErr = false ∧
    (generateNonce orcFind5 100 1 1 100 true ⟨none, none, none⟩).st.nonce = some 5 := by
  decide

/-- Unfolded form of the reader, for rewriting (the name read alone is
ambiguous with the monadic reader of the library in tactic position). -/
theorem read_def (file : List Nat) (k1 k2 : Nat) :
    read file k1 k2 =
      if file.length < 8 then .error .tooSmall
      else if beUint64 ((file.drop k1).take k2 ++ List.replicate (8 - k2) 0)
          ≠ crc64 (file.take k1) then
        .error (.checksumMismatch
          (beUint64 ((file.drop k1).take k2 ++ List.replicate (8 - k2) 0))
          (crc64 (file.take k1)))
      else .ok (file.take k1 ++ List.replicate (file.length - 8 - k1) 0) := rfl

/-- C5: read fails with the too-small error exactly when the file is
shorter than crc64.Size = 8 bytes, under every read schedule; and the
8-byte file holding the big-endian CRC-64/ISO of the empty payload
(which is 0, so the file is eight zero bytes) succeeds with an empty
payload. -/
theorem read_tooSmall_iff_min_size :
    (∀ file k1 k2, read file k1 k2 = .error .tooSmall ↔ file.length < 8) ∧
    readGreedy (List.replicate 8 0) = .ok [] ∧
    crc64 [] = 0 := by
  refine ⟨?_, by decide, by decide⟩
  intro file k1 k2
  rw [read_def]
  constructor
  · intro h
    by_contra hlen
    rw [if_neg hlen] at h
    split at h
    · simp at h
    · simp at h
  · intro h
    rw [if_pos h]

/-- C6: whenever the loaded metadata carries a non-null nonce, newParams
returns ErrNonceExists, so the genonce flow stops before generateNonce
and performs zero oracle calls. -/
theorem genonceFlow_guard_on_existing_nonce :
    ∀ orc b fuel sf m n, m.nonce = some n →
      genonceFlow orc b fuel sf m = .error .nonceExists ∧
      flowCalls (genonceFlow orc b fuel sf m) = [] := by
  intro orc b fuel sf m n h
  have hn : newParams m = .error .nonceExists := by
    unfold newParams; rw [h]
  constructor
  · unfold genonceFlow; rw [hn]; rfl
  · unfold flowCalls genonceFlow; rw [hn]; rfl

/-- Witness for the nonce-exists guard at a concrete metadata record. -/
theorem genonceFlow_guard_witness :
    (⟨100, 1, some 7, some 150⟩ : Meta).nonce = some 7 ∧
    genonceFlow orcNone 100 1 false ⟨100, 1, some 7, some 150⟩ = .error .nonceExists ∧
    flowCalls (genonceFlow orcNone 100 1 false ⟨100, 1, some 7, some 150⟩) = [] :=
  ⟨rfl, genonceFlow_guard_on_existing_nonce orcNone 100 1 false _ 7 rfl⟩

/-- When the loop ends with the oracle error, the last oracle call is
recorded and the lastPosition slot holds that call's start position. -/
theorem nonceLoop_oracleErr_last (orc : Nat → Nat → OracleResp) (b : Nat) :
    ∀ fuel i st, (nonceLoop orc b fuel i st).exit = ExitKind.oracleErr →
      ∃ s e, (nonceLoop orc b fuel i st).calls.getLast? = some (s, e) ∧
        (nonceLoop orc b fuel i st).st.lastPosition = some s := by
  intro fuel
  induction fuel with
  | zero =>
    intro i st h
    exact absurd h (by simp [nonceLoop])
  | succ n ih =>
    intro i st h
    simp only [nonceLoop] at h ⊢
    by_cases hi : i < mask64
    · simp only [if_pos hi] at h ⊢
      rcases horc : orc i (rangeEnd i b) with _ | nc
      · simp only [horc] at h ⊢
        exact ⟨i, rangeEnd i b, rfl, rfl⟩
      · rcases nc with _ | n0
        · simp only [horc] at h ⊢
          obtain ⟨s, e2, h1, h2⟩ := ih _ _ h
          refine ⟨s, e2, ?_, h2⟩
          rcases hc : (nonceLoop orc b n ((i + b) % U64)
              { st with lastPosition := some i }).calls with _ | ⟨a, t⟩
          · rw [hc] at h1; simp at h1
          · rw [hc] at h1
            rw [List.getLast?_cons_cons]
            exact h1
        · simp only [horc] at h
          cases h
    · simp only [if_neg hi] at h
      cases h

/-- C8: on every modelled exit of generateNonce (success or oracle
error; fuelOut means the run was cut off still inside the loop, so the
function has not yet returned and the deferred save has not yet run),
the deferred save executes exactly once and sees the state current at
exit; on an oracle error the error is what generateNonce returns, and
the saved state's lastPosition is the start of the failed (last
attempted) batch. -/
theorem generateNonce_saves_once_with_exit_state :
    ∀ orc b fuel nu lpu sf p,
      (generateNonce orc b fuel nu lpu sf p).exit ≠ ExitKind.fuelOut →
      (generateNonce orc b fuel nu lpu sf p).savedStates
          = [(generateNonce orc b fuel nu lpu sf p).st] ∧
      ((generateNonce orc b fuel nu lpu sf p).exit = ExitKind.oracleErr →
        (generateNonce orc b fuel nu lpu sf p).retErr = true ∧
        ∃ s e, (generateNonce orc b fuel nu lpu sf p).calls.getLast? = some (s, e) ∧
          (generateNonce orc b fuel nu lpu sf p).st.lastPosition = some s) := by
  intro orc b fuel nu lpu sf p h
  simp only [generateNonce] at h ⊢
  constructor
  · rw [if_neg h]
  · intro he
    refine ⟨by simp [he], ?_⟩
    exact nonceLoop_oracleErr_last orc b fuel 0 _ he

/-- Witness for the save-on-exit theorem at a concrete failing oracle. -/
theorem generateNonce_saves_once_witness :
    (generateNonce orcErr 100 1 1 100 false ⟨none, none, none⟩).exit ≠ ExitKind.fuelOut ∧
    ((generateNonce orcErr 100 1 1 100 false ⟨none, none, none⟩).savedStates
        = [(generateNonce orcErr 100 1 1 100 false ⟨none, none, none⟩).st] ∧
      ((generateNonce orcErr 100 1 1 100 false ⟨none, none, none⟩).exit = ExitKind.oracleErr →
        (generateNonce orcErr 100 1 1 100 false ⟨none, none, none⟩).retErr = true ∧
        ∃ s e, (generateNonce orcErr 100 1 1 100 false ⟨none, none, none⟩).calls.getLast?
            = some (s, e) ∧
          (generateNonce orcErr 100 1 1 100 false ⟨none, none, none⟩).st.lastPosition
            = some s)) :=
  ⟨by decide, generateNonce_saves_once_with_exit_state orcErr 100 1 1 100 false _ (by decide)⟩

/-- The loop never touches the nonceValue slot. -/
theorem nonceLoop_nonceValue (orc : Nat → Nat → OracleResp) (b : Nat) :
    ∀ fuel i st, (nonceLoop orc b fuel i st).st.nonceValue = st.nonceValue := by
  intro fuel
  induction fuel with
  | zero => intro i st; rfl
  | succ n ih =>
    intro i st
    simp only [nonceLoop]
    by_cases hi : i < mask64
    · simp only [if_pos hi]
      rcases horc : orc i (rangeEnd i b) with _ | nc
      · simp only [horc]
      · rcases nc with _ | n0
        · simp only [horc]
          exact ih _ _
        · simp only [horc]
    · simp only [if_neg hi]

/-- C10: no code path writes the nonceValue slot: newParams builds it
nil, generateNonce's loop leaves it unchanged, so every metadata record
the deferred save writes has an empty NonceValue, even when a nonce was
found. -/
theorem nonceValue_never_written :
    (∀ m pr, newParams m = .ok pr → pr.search.nonceValue = none) ∧
    (∀ orc b fuel nu lpu sf p,
      (generateNonce orc b fuel nu lpu sf p).st.nonceValue = p.nonceValue ∧
      (p.nonceValue = none →
        ∀ s ∈ (generateNonce orc b fuel nu lpu sf p).savedStates,
          (saveMetadata s).nonceValue = [])) := by
  constructor
  · intro m pr h
    rcases hm : m.nonce with _ | n0
    · simp only [newParams, hm] at h
      cases h
      rfl
    · simp only [newParams, hm] at h
      cases h
  · intro orc b fuel nu lpu sf p
    have hval : (generateNonce orc b fuel nu lpu sf p).st.nonceValue = p.nonceValue := by
      simp only [generateNonce]
      rcases hp : p.lastPosition with _ | l
      · simp only [hp]
        exact nonceLoop_nonceValue orc b fuel 0 _
      · simp only [hp]
        split
        · exact nonceLoop_nonceValue orc b fuel 0 _
        · exact nonceLoop_nonceValue orc b fuel 0 _
    refine ⟨hval, ?_⟩
    intro hnone s hs
    simp only [generateNonce] at hs
    split at hs
    · cases hs
    · cases hs with
      | head =>
        simp only [generateNonce] at hval
        simp only [saveMetadata]
        rw [hval, hnone]
        rfl
      | tail _ hmem => cases hmem

/-- Witness for the nonceValue theorem at concrete inputs: a metadata
record without nonce, and a run in which the oracle finds a nonce. -/
theorem nonceValue_never_written_witness :
    (⟨100, 1, ⟨none, none, none⟩⟩ : ParamsRec).search.nonceValue = none ∧
    (generateNonce orcFind5 100 1 1 100 false ⟨none, none, none⟩).st.nonceValue = none ∧
    (∀ s ∈ (generateNonce orcFind5 100 1 1 100 false ⟨none, none, none⟩).savedStates,
      (saveMetadata s).nonceValue = []) :=
  ⟨nonceValue_never_written.1 ⟨100, 1, none, none⟩ _ rfl,
   (nonceValue_never_written.2 orcFind5 100 1 1 100 false ⟨none, none, none⟩).1,
   (nonceValue_never_written.2 orcFind5 100 1 1 100 false ⟨none, none, none⟩).2 rfl⟩

/-! ## CRC-64 single-byte error detection

The reversed-polynomial shift step is injective on 64-bit states (the
polynomial's top bit forces distinct parities to distinct top bits), so
digesting two byte lists that differ in exactly one byte yields distinct
checksums.  This is what makes the corruption half of the round-trip
property true. -/

/-- All byte values of a list are below 256. -/
def ByteList (l : List Nat) : Prop := ∀ x ∈ l, x < 256

instance (l : List Nat) : Decidable (ByteList l) := by
  unfold ByteList; infer_instance

/-- The CRC shift step keeps states below 2^64. -/
theorem crcBit_lt {c : Nat} (hc : c < 2 ^ 64) : crcBit c < 2 ^ 64 := by
  unfold crcBit
  split
  · exact Nat.xor_lt_two_pow (by omega) (by decide)
  · omega

/-- Xor with the polynomial raises the top bit of a sub-2^63 state. -/
theorem crcPoly_xor_ge {a : Nat} (ha : a < 2 ^ 63) : 2 ^ 63 ≤ a ^^^ crcPoly := by
  have h1 : (a ^^^ crcPoly).testBit 63 = true := by
    simp [Nat.testBit_xor, Nat.testBit_lt_two_pow ha]
    decide
  exact Nat.testBit_implies_ge h1

/-- The CRC shift step is injective on 64-bit states. -/
theorem crcBit_inj {c d : Nat} (hc : c < 2 ^ 64) (hd : d < 2 ^ 64)
    (h : crcBit c = crcBit d) : c = d := by
  unfold crcBit at h
  rcases Nat.mod_two_eq_zero_or_one c with h1 | h1 <;>
    rcases Nat.mod_two_eq_zero_or_one d with h2 | h2
  · rw [if_neg (by omega), if_neg (by omega)] at h
    omega
  · rw [if_neg (by omega), if_pos h2] at h
    have hd2 : d / 2 < 2 ^ 63 := by omega
    have := crcPoly_xor_ge hd2
    omega
  · rw [if_pos h1, if_neg (by omega)] at h
    have hc2 : c / 2 < 2 ^ 63 := by omega
    have := crcPoly_xor_ge hc2
    omega
  · rw [if_pos h1, if_pos h2] at h
    have := Nat.xor_left_inj.mp h
    omega

/-- Iterated CRC shift steps keep states below 2^64. -/
theorem crcBitIter_lt : ∀ n c, c < 2 ^ 64 → crcBitIter n c < 2 ^ 64 := by
  intro n
  induction n with
  | zero => intro c hc; exact hc
  | succ m ih => intro c hc; exact ih _ (crcBit_lt hc)

/-- Iterated CRC shift steps are injective on 64-bit states. -/
theorem crcBitIter_inj : ∀ n c d, c < 2 ^ 64 → d < 2 ^ 64 →
    crcBitIter n c = crcBitIter n d → c = d := by
  intro n
  induction n with
  | zero => intro c d _ _ h; exact h
  | succ m ih =>
    intro c d hc hd h
    exact crcBit_inj hc hd (ih _ _ (crcBit_lt hc) (crcBit_lt hd) h)

/-- The byte step keeps states below 2^64 for byte inputs. -/
theorem crcByte_lt {c b : Nat} (hc : c < 2 ^ 64) (hb : b < 256) :
    crcByte c b < 2 ^ 64 :=
  crcBitIter_lt 8 _ (Nat.xor_lt_two_pow hc (by omega))

/-- The byte step is injective in the state. -/
theorem crcByte_inj_state {c d b : Nat} (hc : c < 2 ^ 64) (hd : d < 2 ^ 64)
    (hb : b < 256) (h : crcByte c b = crcByte d b) : c = d := by
  have h2 := crcBitIter_inj 8 _ _ (Nat.xor_lt_two_pow hc (by omega))
    (Nat.xor_lt_two_pow hd (by omega)) h
  exact Nat.xor_left_inj.mp h2

/-- The byte step sends distinct bytes from one state to distinct states. -/
theorem crcByte_ne_byte {c a b : Nat} (hc : c < 2 ^ 64) (ha : a < 256)
    (hb : b < 256) (hne : a ≠ b) : crcByte c a ≠ crcByte c b := by
  intro h
  have h2 := crcBitIter_inj 8 _ _ (Nat.xor_lt_two_pow hc (by omega))
    (Nat.xor_lt_two_pow hc (by omega)) h
  exact hne (Nat.xor_right_inj.mp h2)

/-- Digesting keeps states below 2^64. -/
theorem crc64Update_lt : ∀ l c, ByteList l → c < 2 ^ 64 →
    crc64Update c l < 2 ^ 64 := by
  intro l
  induction l with
  | nil => intro c _ hc; exact hc
  | cons a t ih =>
    intro c hl hc
    exact ih _ (fun x hx => hl x (List.mem_cons_of_mem a hx))
      (crcByte_lt hc (hl a (List.mem_cons_self a t)))

/-- Digesting the same byte list from distinct states yields distinct
results. -/
theorem crc64Update_inj : ∀ l c d, ByteList l → c < 2 ^ 64 → d < 2 ^ 64 →
    c ≠ d → crc64Update c l ≠ crc64Update d l := by
  intro l
  induction l with
  | nil => intro c d _ _ _ hne; exact hne
  | cons a t ih =>
    intro c d hl hc hd hne
    have ha : a < 256 := hl a (List.mem_cons_self a t)
    have ht : ByteList t := fun x hx => hl x (List.mem_cons_of_mem a hx)
    exact ih _ _ ht (crcByte_lt hc ha) (crcByte_lt hd ha)
      (fun h => hne (crcByte_inj_state hc hd ha h))

/-- Replacing the byte at position j by a different byte changes the
digest, from any 64-bit starting state. -/
theorem crc64Update_set_ne : ∀ (l : List Nat) (j : Nat) (c b2 : Nat),
    ByteList l → c < 2 ^ 64 → b2 < 256 → j < l.length → b2 ≠ l.getD j 0 →
    crc64Update c (l.set j b2) ≠ crc64Update c l := by
  intro l
  induction l with
  | nil => intro j c b2 _ _ _ hj _; cases hj
  | cons a t ih =>
    intro j c b2 hl hc hb2 hj hne
    have ha : a < 256 := hl a (List.mem_cons_self a t)
    have ht : ByteList t := fun x hx => hl x (List.mem_cons_of_mem a hx)
    cases j with
    | zero =>
      have hne0 : b2 ≠ a := by simpa using hne
      simp only [List.set]
      exact crc64Update_inj t _ _ ht (crcByte_lt hc hb2) (crcByte_lt hc ha)
        (crcByte_ne_byte hc hb2 ha hne0)
    | succ m =>
      simp only [List.set]
      exact ih m _ b2 ht (crcByte_lt hc ha) hb2 (by simpa using hj)
        (by simpa using hne)

/-- CRC-64/ISO detects every single-byte change. -/
theorem crc64_set_ne {l : List Nat} {j b2 : Nat} (hl : ByteList l)
    (hb2 : b2 < 256) (hj : j < l.length) (hne : b2 ≠ l.getD j 0) :
    crc64 (l.set j b2) ≠ crc64 l := by
  unfold crc64
  intro h
  exact crc64Update_set_ne l j mask64 b2 hl (by decide) hb2 hj hne
    (Nat.xor_left_inj.mp h)

/-- Checksums are 64-bit values. -/
theorem crc64_lt {l : List Nat} (hl : ByteList l) : crc64 l < 2 ^ 64 :=
  Nat.xor_lt_two_pow (crc64Update_lt l mask64 hl (by decide)) (by decide)

/-! ## Big-endian decoding facts -/

/-- Shifting the big-endian fold accumulator out. -/
theorem beFold_shift : ∀ (l : List Nat) (acc : Nat),
    List.foldl (fun a b => a * 256 + b) acc l
      = acc * 256 ^ l.length + List.foldl (fun a b => a * 256 + b) 0 l := by
  intro l
  induction l with
  | nil => intro acc; simp
  | cons b t ih =>
    intro acc
    simp only [List.foldl, List.length_cons]
    rw [ih (acc * 256 + b), ih (0 * 256 + b)]
    ring

/-- The head byte contributes its place value. -/
theorem beUint64_cons (a : Nat) (t : List Nat) :
    beUint64 (a :: t) = a * 256 ^ t.length + beUint64 t := by
  unfold beUint64
  simp only [List.foldl, Nat.zero_mul, Nat.zero_add]
  exact beFold_shift t a

/-- Changing one byte of a list changes its big-endian value. -/
theorem beUint64_set_ne : ∀ (l : List Nat) (j b2 : Nat), j < l.length →
    b2 ≠ l.getD j 0 → beUint64 (l.set j b2) ≠ beUint64 l := by
  intro l
  induction l with
  | nil => intro j b2 hj _; cases hj
  | cons a t ih =>
    intro j b2 hj hne
    cases j with
    | zero =>
      have hne0 : b2 ≠ a := by simpa using hne
      simp only [List.set]
      rw [beUint64_cons, beUint64_cons]
      intro h
      have hK : 0 < 256 ^ t.length := Nat.pos_pow_of_pos _ (by omega)
      have hm : b2 * 256 ^ t.length = a * 256 ^ t.length := by omega
      exact hne0 (Nat.eq_of_mul_eq_mul_right hK hm)
    | succ m =>
      simp only [List.set]
      rw [beUint64_cons, beUint64_cons]
      intro h
      have hlen : (t.set m b2).length = t.length := by simp
      rw [hlen] at h
      exact ih m b2 (by simpa using hj) (by simpa using hne) (by omega)

/-- Decoding the big-endian bytes of a 64-bit value gives it back. -/
theorem beUint64_be64Bytes {n : Nat} (hn : n < 2 ^ 64) :
    beUint64 (be64Bytes n) = n := by
  simp only [beUint64, be64Bytes, List.foldl]
  omega

/-- The big-endian encoding produces bytes. -/
theorem be64Bytes_byteList (n : Nat) : ByteList (be64Bytes n) := by
  intro x hx
  simp only [be64Bytes, List.mem_cons, List.not_mem_nil, or_false] at hx
  rcases hx with rfl | rfl | rfl | rfl | rfl | rfl | rfl | rfl <;> omega

/-- C4: round trip and single-byte error detection of the checksummed
file format, under the regular-file read schedule.  For any payload p,
reading the file p ++ BE64(crc64 p) returns p unchanged; and changing
any single byte of that file — in the payload or in the stored checksum
— makes read fail with the checksum-mismatch error, which carries the
(distinct) stored and computed checksums that Go formats in hexadecimal
in its message. -/
theorem read_roundtrip_detects_corruption :
    ∀ p : List Nat, ByteList p →
      readGreedy (p ++ be64Bytes (crc64 p)) = .ok p ∧
      (∀ j b2, j < p.length + 8 → b2 < 256 →
        b2 ≠ (p ++ be64Bytes (crc64 p)).getD j 0 →
        ∃ s c, readGreedy ((p ++ be64Bytes (crc64 p)).set j b2)
            = .error (.checksumMismatch s c) ∧ s ≠ c) := by
  intro p hp
  have h8 : (be64Bytes (crc64 p)).length = 8 := rfl
  have hk : p.length + 8 - 8 = p.length := by omega
  constructor
  · unfold readGreedy
    rw [read_def]
    rw [List.length_append, h8, hk]
    rw [if_neg (by omega)]
    rw [List.take_left, List.drop_left]
    rw [List.take_of_length_le (le_of_eq h8)]
    simp only [Nat.sub_self, List.replicate_zero, List.append_nil]
    rw [beUint64_be64Bytes (crc64_lt hp)]
    rw [if_neg (by simp)]
  · intro j b2 hj hb2 hne
    by_cases hcase : j < p.length
    · rw [List.getD_append p _ 0 j hcase] at hne
      have hcrcne : crc64 (p.set j b2) ≠ crc64 p := crc64_set_ne hp hb2 hcase hne
      refine ⟨crc64 p, crc64 (p.set j b2), ?_, fun h => hcrcne h.symm⟩
      rw [List.set_append_left j b2 hcase]
      unfold readGreedy
      rw [read_def]
      have hlset : (p.set j b2).length = p.length := by simp
      rw [List.length_append, h8, hlset, hk]
      rw [if_neg (by omega)]
      rw [List.take_left' hlset, List.drop_left' hlset]
      rw [List.take_of_length_le (le_of_eq h8)]
      simp only [Nat.sub_self, List.replicate_zero, List.append_nil]
      rw [beUint64_be64Bytes (crc64_lt hp)]
      rw [if_pos (fun h => hcrcne h.symm)]
    · have hge : p.length ≤ j := Nat.le_of_not_lt hcase
      have hjlt : j - p.length < 8 := by omega
      rw [List.getD_append_right p _ 0 j hge] at hne
      have hbe : beUint64 ((be64Bytes (crc64 p)).set (j - p.length) b2)
          ≠ beUint64 (be64Bytes (crc64 p)) :=
        beUint64_set_ne _ (j - p.length) b2 (by rw [h8]; exact hjlt) hne
      have hcond : beUint64 ((be64Bytes (crc64 p)).set (j - p.length) b2) ≠ crc64 p := by
        intro h
        exact hbe (h.trans (beUint64_be64Bytes (crc64_lt hp)).symm)
      refine ⟨beUint64 ((be64Bytes (crc64 p)).set (j - p.length) b2), crc64 p, ?_, hcond⟩
      rw [List.set_append_right j b2 hge]
      unfold readGreedy
      rw [read_def]
      have hslen : ((be64Bytes (crc64 p)).set (j - p.length) b2).length = 8 := by
        rw [List.length_set, h8]
      rw [List.length_append, hslen, hk]
      rw [if_neg (by omega)]
      rw [List.take_left, List.drop_left]
      rw [List.take_of_length_le (le_of_eq hslen)]
      simp only [Nat.sub_self, List.replicate_zero, List.append_nil]
      rw [if_pos hcond]

/-- Witness for the round-trip theorem at the payload [7]: the written
file reads back, and corrupting byte 0 (payload) or byte 3 (inside the
stored checksum) yields the mismatch error. -/
theorem read_roundtrip_witness :
    readGreedy ([7] ++ be64Bytes (crc64 [7])) = .ok [7] ∧
    (∃ s c, readGreedy (([7] ++ be64Bytes (crc64 [7])).set 0 8)
        = .error (.checksumMismatch s c) ∧ s ≠ c) ∧
    (∃ s c, readGreedy (([7] ++ be64Bytes (crc64 [7])).set 3 9)
        = .error (.checksumMismatch s c) ∧ s ≠ c) :=
  have h := read_roundtrip_detects_corruption [7] (by decide)
  ⟨h.1, h.2 0 8 (by decide) (by decide) (by decide),
    h.2 3 9 (by decide) (by decide) (by decide)⟩
